import Mathlib

set_option maxRecDepth 100000

/-!
Verification of the `apa` arbitrary-precision integer crate.

The crate contains two drafts of the representation layer:

* `src/apint` — an `ApInt` storing raw two's-complement bit patterns across
  machine-word limbs (sign read from the top limb's high bit), with
  primitive conversions (`convert.rs`), `num_traits` conversions (`num.rs`)
  and comparison (`cmp.rs`);
* `src/int` — the exported `Int`, storing sign-magnitude: a signed `i32`
  length field whose sign is the integer's sign and whose magnitude is the
  limb count, with an inline-limb/heap-pointer union (`repr.rs`, `mod.rs`).

Both are embedded below for a 64-bit little-endian target
(`Limb = usize`, `Limb::BITS = 64`, `target_pointer_width = "64"`),
which is the configuration the crate's tests target.
-/

/-! ### Machine-word basics -/

/-- Bits of a limb (`Limb::BITS` with `LimbRepr = usize` on a 64-bit target). -/
def LIMB_BITS : Nat := 64

/-- Bytes of a limb (`Limb::SIZE`). -/
def LIMB_SIZE : Nat := 8

/-- Fuel-driven helper for `bitLen` (structural recursion so the kernel can
evaluate it). -/
def bitLenAux : Nat → Nat → Nat
  | _, 0 => 0
  | 0, _ => 0
  | fuel + 1, n => bitLenAux fuel (n / 2) + 1

/-- Number of bits needed to represent `n`:
`BITS_TY - leading_zeros(n)` for an `n`-holding type. `bitLen 0 = 0`. -/
def bitLen (n : Nat) : Nat := bitLenAux n n

/-- Source `Limb::repr_signed`: reinterpret a limb (a 64-bit machine word) as a
signed `isize`. -/
def repr_signed (v : Nat) : Int :=
  if v < 2 ^ 63 then (v : Int) else (v : Int) - 2 ^ 64

/-- Source `val as $ty` for an unsigned `tyBits`-bit target: truncate the
two's-complement bits. -/
def castUnsigned (tyBits : Nat) (x : Int) : Nat := (x.emod (2 ^ tyBits)).toNat

/-- Source `val as $ty` for a signed `tyBits`-bit target: truncate the
two's-complement bits and reinterpret as signed. -/
def castSigned (tyBits : Nat) (x : Int) : Int :=
  let r := x.emod (2 ^ tyBits)
  if r < 2 ^ (tyBits - 1) then r else r - 2 ^ tyBits

/-! ### The `ApInt` two's-complement draft (`src/apint/mod.rs`)

`ApInt` is a `NonZeroUsize` length plus a union of a single stack limb
(`len == 1`) or a pointer to `len` heap limbs (`len > 1`).  The
discriminated view `LimbData::Stack / LimbData::Heap` is modelled as an
inductive; heap limbs are least-significant first (little-endian target). -/

inductive ApInt where
  | stack (value : Nat)
  | heap (limbs : List Nat)
deriving DecidableEq

/-- Source `ApInt::len` (`NonZeroUsize`): 1 for stack, the limb count for heap. -/
def ApInt.len : ApInt → Nat
  | .stack _ => 1
  | .heap ls => ls.length

/-! ### `impl_from_prim` (`src/apint/convert.rs`)

The unsigned arm: `FITS = SIZE_TY < SIZE_LIMB`;
`bits_val = BITS_TY - leading_zeros(val) = bitLen val`; a stack limb is
`val as LimbRepr`; otherwise `capacity = bits_val / BITS_LIMB + 1` limbs
are zero-allocated and the first `capacity - (SIZE_TY >= SIZE_LIMB)` of
them are filled with the low-to-high 64-bit chunks of `val`
(`limb_order` is the identity on a little-endian target). -/

def apFromUnsigned (tyBits : Nat) (val : Nat) : ApInt :=
  let bitsVal := bitLen val
  if tyBits < LIMB_BITS ∨ bitsVal < LIMB_BITS then
    .stack (val % 2 ^ LIMB_BITS)
  else
    let capacity := bitsVal / LIMB_BITS + 1
    let iterTo := capacity - (if LIMB_BITS ≤ tyBits then 1 else 0)
    .heap ((List.range capacity).map fun i =>
      if i < iterTo then val / 2 ^ (LIMB_BITS * i) % 2 ^ LIMB_BITS else 0)

/-- The stack limb of the signed arm:
`(abs_val as LimbRepr) | ((val & SIGN_TY) as LimbRepr)` where
`abs_val = val & !SIGN_TY`.  The cast of `val & SIGN_TY` sign-extends for
`tyBits ≤ 64` and truncates (to `0`) for `tyBits = 128`. -/
def stackLimbSigned (tyBits : Nat) (val : Int) : Nat :=
  let tcBits := (val.emod (2 ^ tyBits)).toNat
  let absBits := tcBits % 2 ^ (tyBits - 1)
  let absCast := absBits % 2 ^ LIMB_BITS
  let signLimb :=
    if tcBits / 2 ^ (tyBits - 1) = 1 then
      if tyBits ≤ LIMB_BITS then 2 ^ LIMB_BITS - 2 ^ (tyBits - 1) else 0
    else 0
  absCast ||| signLimb

/-- The signed arm of `impl_from_prim`:
`bits_val = BITS_TY - (leading_zeros(val) + leading_ones(val))`, which is
`bitLen val` for `val ≥ 0` and `bitLen (-val - 1)` for `val < 0`;
stack when `FITS || bits_val <= BITS_LIMB`; otherwise
`capacity = ceil(bits_val / BITS_LIMB)` limbs are written from the
arithmetically shifted two's-complement of `val`. -/
def apFromSigned (tyBits : Nat) (val : Int) : ApInt :=
  let bitsVal := if 0 ≤ val then bitLen val.toNat else bitLen (-val - 1).toNat
  if tyBits < LIMB_BITS ∨ bitsVal ≤ LIMB_BITS then
    .stack (stackLimbSigned tyBits val)
  else
    let capacity := bitsVal / LIMB_BITS + (if bitsVal % LIMB_BITS ≠ 0 then 1 else 0)
    .heap ((List.range capacity).map fun i =>
      ((val.fdiv (2 ^ (LIMB_BITS * i))).emod (2 ^ LIMB_BITS)).toNat)

/-! ### `impl_to_prim` (`src/apint/convert.rs`)

`From<&ApInt> for $ty` (infallible): a stack limb is
`limb.repr_signed() as $ty`; a heap value whose byte size covers
`SIZE_TY` is read directly (`$ty::from_le`, i.e. the low `tyBits` bits of
the limb array); a narrower heap value is sign-extended limb-wise. -/

/-- Value of a little-endian limb array as an unsigned number. -/
def limbsToNat : List Nat → Nat
  | [] => 0
  | l :: ls => l + 2 ^ LIMB_BITS * limbsToNat ls

/-- Two's-complement (signed) value of a little-endian limb array: the sign
is the top bit of the last limb. -/
def heapSigned (ls : List Nat) : Int :=
  let n := limbsToNat ls
  if n < 2 ^ (LIMB_BITS * ls.length - 1) then (n : Int)
  else (n : Int) - 2 ^ (LIMB_BITS * ls.length)

/-- Source `From<&ApInt> for $ty`, `$ty` unsigned of `tyBits` bits. -/
def apToPrimUnsigned (tyBits : Nat) (a : ApInt) : Nat :=
  match a with
  | .stack v => castUnsigned tyBits (repr_signed v)
  | .heap ls =>
    if tyBits ≤ LIMB_BITS * ls.length then limbsToNat ls % 2 ^ tyBits
    else castUnsigned tyBits (heapSigned ls)

/-- Source `From<&ApInt> for $ty`, `$ty` signed of `tyBits` bits. -/
def apToPrimSigned (tyBits : Nat) (a : ApInt) : Int :=
  match a with
  | .stack v => castSigned tyBits (repr_signed v)
  | .heap ls =>
    if tyBits ≤ LIMB_BITS * ls.length then castSigned tyBits (limbsToNat ls)
    else castSigned tyBits (heapSigned ls)

/-! ### `ToPrimitive` (`src/apint/num.rs`)

`to_prim!` handles only the stack case (heap is `None`); `to_int!` also
converts heap values of at most `LEN = size_of::<$ty>() / Limb::SIZE`
limbs; `to_uint!` uses `LEN = size_of::<$ty>() / Limb::SIZE + 1` and
additionally accepts exactly `LEN` limbs when the top limb is zero.
The stack case delegates to `num_traits`' checked conversion of the
`i64`-interpreted limb. -/

/-- Source `num_traits` checked conversion of an `i64` value to an unsigned
`tyBits`-bit type. -/
def checkedToUnsigned (tyBits : Nat) (s : Int) : Option Nat :=
  if 0 ≤ s ∧ s < 2 ^ tyBits then some s.toNat else none

/-- Source `num_traits` checked conversion of an `i64` value to a signed
`tyBits`-bit type. -/
def checkedToSigned (tyBits : Nat) (s : Int) : Option Int :=
  if -(2 ^ (tyBits - 1)) ≤ s ∧ s < 2 ^ (tyBits - 1) then some s else none

/-- Source `ToPrimitive::to_usize` (`to_prim!`, 64-bit target): heap is `None`. -/
def apToUsize (a : ApInt) : Option Nat :=
  match a with
  | .stack v => checkedToUnsigned 64 (repr_signed v)
  | .heap _ => none

/-- Source `ToPrimitive::to_u128` (`to_uint!` with `LEN = 3`). -/
def apToU128 (a : ApInt) : Option Nat :=
  match a with
  | .stack v => checkedToUnsigned 128 (repr_signed v)
  | .heap ls =>
    if ls.length + 1 ≤ 3 then some (apToPrimUnsigned 128 (.heap ls))
    else if ls.length = 3 ∧ ls.getD 2 1 = 0 then some (apToPrimUnsigned 128 (.heap ls))
    else none

/-- Source `ToPrimitive::to_u64` (`to_uint!` with `LEN = 2`). -/
def apToU64 (a : ApInt) : Option Nat :=
  match a with
  | .stack v => checkedToUnsigned 64 (repr_signed v)
  | .heap ls =>
    if ls.length + 1 ≤ 2 then some (apToPrimUnsigned 64 (.heap ls))
    else if ls.length = 2 ∧ ls.getD 1 1 = 0 then some (apToPrimUnsigned 64 (.heap ls))
    else none

/-- Source `ToPrimitive::to_i128` (`to_int!` with `LEN = 2`). -/
def apToI128 (a : ApInt) : Option Int :=
  match a with
  | .stack v => checkedToSigned 128 (repr_signed v)
  | .heap ls =>
    if ls.length ≤ 2 then some (apToPrimSigned 128 (.heap ls))
    else none

/-! ### `Ord for ApInt` (`src/apint/cmp.rs`)

Stack/stack compares the limbs reinterpreted as signed words; heap/heap
first compares the sign bits of the most significant limbs, then the limb
counts (reversed when negative), then the limbs most-significant first as
unsigned words; mixed stack/heap is decided by the heap value's sign bit. -/

/-- Native `Ord::cmp` on integers. -/
def ordInt (a b : Int) : Ordering :=
  if a < b then .lt else if a = b then .eq else .gt

/-- Native `Ord::cmp` on unsigned words. -/
def ordNat (a b : Nat) : Ordering :=
  if a < b then .lt else if a = b then .eq else .gt

/-- Most-significant-first scan of two equal-length limb runs (the loop at
the end of `Ord::cmp`, fed with the limbs already reversed). -/
def msfCmp : List Nat → List Nat → Ordering
  | l :: ls, r :: rs =>
    match ordNat l r with
    | .eq => msfCmp ls rs
    | o => o
  | _, _ => .eq

/-- Source `Ord::cmp for ApInt`. -/
def apCmp (x y : ApInt) : Ordering :=
  match x, y with
  | .stack l, .stack r => ordInt (repr_signed l) (repr_signed r)
  | .heap ls, .heap rs =>
    let l := ls.getLast?.getD 0
    let r := rs.getLast?.getD 0
    let lBit := l / 2 ^ (LIMB_BITS - 1)
    let rBit := r / 2 ^ (LIMB_BITS - 1)
    if lBit = 0 ∧ rBit = 1 then .gt
    else if lBit = 1 ∧ rBit = 0 then .lt
    else
      match ordNat ls.length rs.length with
      | .eq => msfCmp ls.reverse rs.reverse
      | o => if lBit = 0 then o else o.swap
  | .stack _, .heap rs =>
    if rs.getLast?.getD 0 / 2 ^ (LIMB_BITS - 1) = 1 then .gt else .lt
  | .heap ls, .stack _ =>
    if ls.getLast?.getD 0 / 2 ^ (LIMB_BITS - 1) = 1 then .lt else .gt

/-! ### The exported sign-magnitude `Int` (`src/int/repr.rs`, `src/int/mod.rs`)

`Int = { repr: Repr, len: ReprLen }` where `Repr` is a word-sized union of
an inline limb and a heap pointer and `ReprLen` is an `i32` whose sign is
the integer's sign and whose magnitude is the limb count
(`|len| ≤ 1` inline, `|len| > 1` heap).  The union word is modelled as a
single `Nat` (`repr`), read as a limb value or as a heap address according
to `len`, and the heap is modelled explicitly as an address-to-block map. -/

/-- The heap: allocated blocks of limbs keyed by address, plus a counter
supplying fresh addresses. -/
structure Mem where
  blocks : List (Nat × List Nat)
  next : Nat
deriving DecidableEq

/-- Read the block allocated at address `a`, if any. -/
def readBlock (m : Mem) (a : Nat) : Option (List Nat) :=
  (m.blocks.find? fun p => p.fst == a).map (fun p => p.snd)

/-- Overwrite the block at address `a` (models writing through the pointer). -/
def writeBlock (m : Mem) (a : Nat) (ls : List Nat) : Mem :=
  ⟨m.blocks.map fun p => if p.fst == a then (a, ls) else p, m.next⟩

/-- Deallocate the block at address `a` (`alloc::deallocate`). -/
def freeBlock (m : Mem) (a : Nat) : Mem :=
  ⟨m.blocks.filter fun p => p.fst != a, m.next⟩

/-- Allocate a fresh block holding `ls` (`alloc::allocate` followed by the
writes that initialise it).  Returns the new address. -/
def allocBlock (m : Mem) (ls : List Nat) : Nat × Mem :=
  (m.next, ⟨(m.next, ls) :: m.blocks, m.next + 1⟩)

/-- Source `Int`: the `Repr` union word plus the `ReprLen` field. -/
structure IntR where
  repr : Nat
  len : Int
deriving DecidableEq

/-- Source `ReprLen::is_inline`: `matches!(len, -1 | 0 | 1)`. -/
def lenIsInline (len : Int) : Bool :=
  len == -1 || len == 0 || len == 1

/-- Source `Sign` (`src/int/mod.rs`). -/
inductive Sign where
  | negative
  | zero
  | positive
deriving DecidableEq

/-- Source `ReprLen::sign`. -/
def reprLenSign (len : Int) : Sign :=
  if 0 < len then .positive else if len = 0 then .zero else .negative

/-- Source `Int::sign`. -/
def IntR.sign (x : IntR) : Sign := reprLenSign x.len

/-- Source `Int::from_limb`: a single unsigned limb, `len` 0 or 1. -/
def from_limb (v : Nat) : IntR :=
  ⟨v, if v = 0 then 0 else 1⟩

/-- Source `Int::from_usize`. -/
def from_usize (n : Nat) : IntR := from_limb n

/-- Source `Int::from_isize`: the limb is `n.unsigned_abs()`, the length is the
signum of `n`. -/
def from_isize (n : Int) : IntR :=
  ⟨n.natAbs, if 0 < n then 1 else if n = 0 then 0 else -1⟩

/-- Source `Int::ZERO`. -/
def intZERO : IntR := from_isize 0

/-- Source `Int::ONE`. -/
def intONE : IntR := from_isize 1

/-- Source `Int::NEG_ONE`. -/
def intNEG_ONE : IntR := from_isize (-1)

/-- Source `Int::signum`. -/
def signumInt (x : IntR) : IntR :=
  match x.sign with
  | .negative => intNEG_ONE
  | .zero => intZERO
  | .positive => intONE

/-- Source `Int::abs`: replaces `len` by `len.abs()`. -/
def absInt (x : IntR) : IntR := ⟨x.repr, |x.len|⟩

/-- Source `Int::current_allocation`: `None` when inline, otherwise the heap
address together with the byte size `Limb::SIZE * len.len()` of the
layout. -/
def current_allocation (x : IntR) : Option (Nat × Nat) :=
  if lenIsInline x.len then none
  else some (x.repr, LIMB_SIZE * x.len.natAbs)

/-- Source `Clone::clone for Int`: inline values copy the union word; heap values
allocate a fresh block of the same layout and bulk-copy the limbs. -/
def cloneInt (m : Mem) (x : IntR) : IntR × Mem :=
  match current_allocation x with
  | none => (⟨x.repr, x.len⟩, m)
  | some (src, _) =>
    let ls := (readBlock m src).getD []
    let (dst, m1) := allocBlock m ls
    (⟨dst, x.len⟩, m1)

/-- Source `Drop for Int`: deallocates exactly when `current_allocation` is
`Some`. -/
def dropInt (m : Mem) (x : IntR) : Mem :=
  match current_allocation x with
  | none => m
  | some (a, _) => freeBlock m a

/-- Source `Clone::clone_from for Int` (`clone_into(dst, src)`), modelled
faithfully to the source: when `src` is inline, `*self = source.clone()`
(drop `dst`, inline copy); when `src` is heap-backed the code computes a
destination pointer `dst` — a fresh allocation if `self` was inline, the
possibly reallocated (and possibly moved, modelled as a fresh address)
old block if sizes differ, or the old block itself — copies the limbs to
it and updates `self.len`, but never stores `dst` back into `self.repr`. -/
def clone_from (m : Mem) (dst src : IntR) : IntR × Mem :=
  match current_allocation src with
  | none =>
    let m1 :=
      match current_allocation dst with
      | none => m
      | some (a, _) => freeBlock m a
    (⟨src.repr, src.len⟩, m1)
  | some (srcAddr, newSize) =>
    let srcLs := (readBlock m srcAddr).getD []
    match current_allocation dst with
    | none =>
      let (_, m1) := allocBlock m srcLs
      (⟨dst.repr, src.len⟩, m1)
    | some (dstAddr, oldSize) =>
      if oldSize ≠ newSize then
        let m1 := freeBlock m dstAddr
        let (_, m2) := allocBlock m1 srcLs
        (⟨dst.repr, src.len⟩, m2)
      else
        (⟨dst.repr, src.len⟩, writeBlock m dstAddr srcLs)

/-! ### Equality (`PartialEq for Int`, `ll::eq`)

`self.len != other.len` is decided first; inline representations compare
the union words; heap representations compare `len * Limb::SIZE` raw
bytes with `memcmp`.  Bytes are modelled by serialising each limb to its
8 little-endian bytes. -/

/-- The `k` low little-endian bytes of a limb value. -/
def limbBytes : Nat → Nat → List Nat
  | 0, _ => []
  | k + 1, v => v % 256 :: limbBytes k (v / 256)

/-- The raw bytes of a limb array (`Limb::SIZE = 8` bytes per limb). -/
def limbsBytes (ls : List Nat) : List Nat :=
  (ls.map (limbBytes LIMB_SIZE)).flatten

/-- Source `PartialEq::eq for Int`; reading through an invalid heap pointer is
modelled as comparison failure. -/
def intEq (m : Mem) (a b : IntR) : Bool :=
  if a.len ≠ b.len then false
  else if lenIsInline a.len then a.repr == b.repr
  else
    match readBlock m a.repr, readBlock m b.repr with
    | some x, some y =>
      limbsBytes (x.take a.len.natAbs) == limbsBytes (y.take a.len.natAbs)
    | _, _ => false

/-! ### `PartialEq<usize>` and `PartialEq<isize>` (`src/int/mod.rs`) -/

/-- Source `PartialEq<usize> for Int`: only `len ∈ {0, 1}` can match, then the
inline limb is compared. -/
def eqUsize (x : IntR) (other : Nat) : Bool :=
  if x.len = 0 ∨ x.len = 1 then x.repr == other else false

/-- Source `PartialEq<isize> for Int`: `len` must equal `other.signum()`, then the
inline limb is compared with `other.unsigned_abs()`. -/
def eqIsize (x : IntR) (other : Int) : Bool :=
  let signum : Int := if 0 < other then 1 else if other = 0 then 0 else -1
  if x.len = signum then x.repr == other.natAbs else false

/-! ### `Int::allocate` and the capacity guards (`src/int/repr.rs`) -/

/-- Source `isize::MAX` on the 64-bit target. -/
def isizeMaxN : Nat := 2 ^ 63 - 1

/-- Source `usize::BITS` on the 64-bit target. -/
def usizeBits : Nat := 64

/-- Source `Layout::array::<Limb>(n)`: the byte size `Limb::SIZE * n`, or an
error when it exceeds `isize::MAX`. -/
def layoutArrayLimb (n : Nat) : Option Nat :=
  if LIMB_SIZE * n ≤ isizeMaxN then some (LIMB_SIZE * n) else none

/-- Source `alloc_guard`: `Err` iff `usize::BITS < 64 && size > isize::MAX`. -/
def alloc_guard (size : Nat) : Bool :=
  !(usizeBits < 64 && isizeMaxN < size)

/-- Result of `Int::allocate`: a fresh `Int` plus the updated heap, or the
diverging `capacity_overflow()` panic. -/
inductive AllocResult where
  | ok (x : IntR) (m : Mem)
  | capacityOverflow
deriving DecidableEq

/-- Source `Int::allocate(len)` (caller guarantees `|len| > 1`): build the layout
for `|len|` limbs, run the guards (each failure panics through the single
`capacity_overflow` function), then allocate zeroed memory. -/
def allocateInt (m : Mem) (len : Int) : AllocResult :=
  match layoutArrayLimb len.natAbs with
  | none => .capacityOverflow
  | some size =>
    if alloc_guard size then
      let (a, m1) := allocBlock m (List.replicate len.natAbs 0)
      .ok ⟨a, len⟩ m1
    else .capacityOverflow

/-! ### The bounded limb accessor (`src/limbs.rs`, debug builds)

`Limbs`/`LimbsMut` carry a `Bounds { lo, hi }` byte range in debug builds
(`hi = ptr + len * Limb::SIZE`); `copy_nonoverlapping` debug-asserts that
both pointers can be dereferenced, that both ranges admit an offset of
`count` limbs, and that the two bounds are not "overlapping" according to
`Bounds::is_overlapping`.  Release builds replace every check by a
constant, compiling them away. -/

structure Bounds where
  lo : Nat
  hi : Nat
deriving DecidableEq

/-- Source `Bounds::new(ptr, len)`. -/
def Bounds.new (ptr len : Nat) : Bounds :=
  ⟨ptr, ptr + len * LIMB_SIZE⟩

/-- Source `Bounds::can_deref`: strictly inside `[lo, hi)`. -/
def Bounds.can_deref (b : Bounds) (ptr : Nat) : Bool :=
  decide (b.lo ≤ ptr ∧ ptr < b.hi)

/-- Source `Bounds::is_valid_offset`: `ptr + count * Limb::SIZE` must not overflow
a `usize` and must land in `[lo, hi]`. -/
def Bounds.is_valid_offset (b : Bounds) (ptr count : Nat) : Bool :=
  decide (ptr + count * LIMB_SIZE ≤ 2 ^ 64 - 1 ∧
    b.lo ≤ ptr + count * LIMB_SIZE ∧ ptr + count * LIMB_SIZE ≤ b.hi)

/-- Source `Bounds::is_overlapping(self, other)`:
`(self.lo > other.lo && self.lo < other.hi) || (self.hi > other.lo && self.hi < other.hi)`. -/
def Bounds.is_overlapping (b other : Bounds) : Bool :=
  decide ((other.lo < b.lo ∧ b.lo < other.hi) ∨ (other.lo < b.hi ∧ b.hi < other.hi))

/-- The conjunction of the debug assertions of
`LimbsMut::copy_nonoverlapping(dst, src, count)` (destination bounds and
pointer first, then source, then the overlap check). -/
def copy_nonoverlapping_checks (dstB : Bounds) (dstPtr : Nat)
    (srcB : Bounds) (srcPtr count : Nat) : Bool :=
  dstB.can_deref dstPtr && dstB.is_valid_offset dstPtr count &&
    srcB.can_deref srcPtr && srcB.is_valid_offset srcPtr count &&
    !(dstB.is_overlapping srcB)

/-- Two byte ranges genuinely overlap: they share at least one address
(both are nonempty and each starts before the other ends). -/
def rangesOverlap (a b : Bounds) : Prop :=
  a.lo < b.hi ∧ b.lo < a.hi ∧ a.lo < a.hi ∧ b.lo < b.hi

instance (a b : Bounds) : Decidable (rangesOverlap a b) := by
  unfold rangesOverlap
  infer_instance

/-! ### Reachability through the crate's public interface (`src/lib.rs`)

The compiled crate exports only `Int` and `Sign`; the `Int` values
obtainable through the public interface are the constants, the
`from_usize`/`from_isize` constructors, and the closure of those under
`signum`, `abs`, `clone` and `clone_from`. -/

inductive Reach : Mem → IntR → Prop where
  | zero (m : Mem) : Reach m intZERO
  | one (m : Mem) : Reach m intONE
  | negOne (m : Mem) : Reach m intNEG_ONE
  | ofUsize (m : Mem) (n : Nat) : Reach m (from_usize n)
  | ofIsize (m : Mem) (n : Int) : Reach m (from_isize n)
  | signum (m : Mem) (x : IntR) : Reach m x → Reach m (signumInt x)
  | abs (m : Mem) (x : IntR) : Reach m x → Reach m (absInt x)
  | clone (m : Mem) (x : IntR) : Reach m x →
      Reach (cloneInt m x).2 (cloneInt m x).1
  | cloneFrom (m : Mem) (dst src : IntR) : Reach m dst → Reach m src →
      Reach (clone_from m dst src).2 (clone_from m dst src).1

/-! ### Magnitude limbs and the representation invariants -/

/-- The limb storage of an `Int`: the single inline limb, or the heap block
behind the pointer. -/
def magLimbs (m : Mem) (x : IntR) : Option (List Nat) :=
  if lenIsInline x.len then some [x.repr] else readBlock m x.repr

/-- The representation invariants for a live `Int` (`src/int/repr.rs`):
a zero length stores the zero limb; an inline representation stores a
machine word; a heap representation owns a valid block of exactly
`|len|` limbs, each one a machine word. -/
structure IntWF (m : Mem) (x : IntR) : Prop where
  zeroRepr : x.len = 0 → x.repr = 0
  inlineLt : x.len.natAbs ≤ 1 → x.repr < 2 ^ 64
  heapLs : 1 < x.len.natAbs → ∃ ls, readBlock m x.repr = some ls ∧
      ls.length = x.len.natAbs ∧ ∀ l ∈ ls, l < 2 ^ 64

/-! ## Theorems -/

/-- C1 — the claimed round-trip `T::try_from(Int::from(v)) == Some(v)`
fails on the code: `ApInt::from(2^64 : u128)` writes only
`capacity - 1` limbs (the `SIZE_TY >= SIZE_LIMB` hack drops the high
limb), producing the heap value `[0, 0]`, so `to_u128` returns `Some(0)`;
`ApInt::from(2^63 : i128)` lands on the stack branch
(`bits_val <= BITS_LIMB` counts no sign bit) and reads back negated;
`to_usize` (`to_prim!`) returns `None` for every heap value, so
`usize` values at or above `2^63` never convert back. -/
theorem c1_round_trip_fails_eval :
    apToU128 (apFromUnsigned 128 (2 ^ 64)) = some 0 ∧
    apToI128 (apFromSigned 128 (2 ^ 63)) = some (-(2 ^ 63)) ∧
    apToUsize (apFromUnsigned 64 (2 ^ 63)) = none := by
  decide

/-- C2 — the claimed "never silently wrapped" extraction fails on the
code: `ApInt::from(i128::MIN)` is the heap value `[0, 2^63]`
(two's-complement, negative), and `to_u128`'s heap arm checks only the
limb count, never the sign, so it returns `Some(2^127)` — the wrapped
bit pattern — where the claim (and the `ToPrimitive` contract) require
`None` for a negative value. -/
theorem c2_to_unsigned_wraps_negative_eval :
    apFromSigned 128 (-(2 ^ 127)) = ApInt.heap [0, 2 ^ 63] ∧
    apToU128 (apFromSigned 128 (-(2 ^ 127))) = some (2 ^ 127) := by
  decide

/-- C3 — the claimed `clone_into` equality fails on the code: with
`dst` inline (`⟨3, 1⟩`) and `src` heap-backed (address 100 holding
`[5, 7]`), `clone_from` allocates a fresh block and copies the limbs
into it, but never stores the new pointer into `dst.repr`; `dst` ends as
`⟨3, 2⟩`, whose pointer word `3` is not an allocated address, so `dst`
does not compare equal to `src` (and the copy is leaked). -/
theorem c3_clone_from_loses_pointer_eval :
    (clone_from ⟨[(100, [5, 7])], 101⟩ ⟨3, 1⟩ ⟨100, 2⟩).1 = ⟨3, 2⟩ ∧
    readBlock (clone_from ⟨[(100, [5, 7])], 101⟩ ⟨3, 1⟩ ⟨100, 2⟩).2 3 = none ∧
    (let r := clone_from ⟨[(100, [5, 7])], 101⟩ ⟨3, 1⟩ ⟨100, 2⟩
     intEq r.2 r.1 ⟨100, 2⟩) = false := by
  decide

/-- C4 — the claimed agreement of `Int::from(a).cmp(Int::from(b))`
with `a.cmp(b)` fails on the code: the conversion bug maps both
`2^64 : u128` and `2^65 : u128` to the heap value `[0, 0]`, so the
comparison returns `Equal` although `2^64 < 2^65`. -/
theorem c4_cmp_disagrees_with_native_eval :
    apCmp (apFromUnsigned 128 (2 ^ 64)) (apFromUnsigned 128 (2 ^ 65)) =
      Ordering.eq ∧
    ordNat (2 ^ 64) (2 ^ 65) = Ordering.lt := by
  decide

/-- C8 — sign preservation: the sign reported by
`Int::from_isize(n).sign()` is `Negative` exactly when `n < 0`, `Zero`
exactly when `n = 0` and `Positive` exactly when `n > 0`, and
`Int::from_usize(k).sign()` is `Zero` exactly when `k = 0`, `Positive`
exactly when `k > 0`, and never `Negative`. -/
theorem c8_sign_preservation :
    ∀ n : Int,
      ((from_isize n).sign = Sign.negative ↔ n < 0) ∧
      ((from_isize n).sign = Sign.zero ↔ n = 0) ∧
      ((from_isize n).sign = Sign.positive ↔ 0 < n) ∧
      ∀ k : Nat,
        ((from_usize k).sign = Sign.zero ↔ k = 0) ∧
        ((from_usize k).sign = Sign.positive ↔ 0 < k) ∧
        (from_usize k).sign ≠ Sign.negative := by
  intro n
  have key : (from_isize n).sign =
      (if n < 0 then Sign.negative else if n = 0 then Sign.zero else Sign.positive) := by
    unfold from_isize IntR.sign reprLenSign
    rcases lt_trichotomy n 0 with h | h | h
    · have h1 : ¬ 0 < n := by omega
      have h2 : n ≠ 0 := by omega
      norm_num [h, h1, h2]
    · norm_num [h]
    · have h1 : ¬ n < 0 := by omega
      have h2 : n ≠ 0 := by omega
      norm_num [h, h1, h2]
  refine ⟨?_, ?_, ?_, ?_⟩
  · rw [key]
    split_ifs with h1 h2 <;> simp_all
  · rw [key]
    split_ifs with h1 h2 <;> simp_all
    all_goals omega
  · rw [key]
    split_ifs with h1 h2 <;> simp_all
    all_goals omega
  · intro k
    rcases Nat.eq_zero_or_pos k with h | h
    · simp [from_usize, from_limb, IntR.sign, reprLenSign, h]
    · have h2 : k ≠ 0 := by omega
      simp [from_usize, from_limb, IntR.sign, reprLenSign, h2]
      omega

/-- C10 — construction followed by primitive comparison is the
identity: for every `isize` value `n` (including `isize::MIN`, whose
magnitude is taken with `unsigned_abs`), `Int::from_isize(n) == n` under
`PartialEq<isize>`, and for every `usize` value `k`,
`Int::from_usize(k) == k` under `PartialEq<usize>`. -/
theorem c10_construct_then_eq :
    (∀ n : Int, -(2 ^ 63) ≤ n → n < 2 ^ 63 →
      eqIsize (from_isize n) n = true) ∧
    (∀ k : Nat, k < 2 ^ 64 → eqUsize (from_usize k) k = true) := by
  constructor
  · intro n _ _
    simp [eqIsize, from_isize]
  · intro k _
    rcases Nat.eq_zero_or_pos k with h | h
    · simp [eqUsize, from_usize, from_limb, h]
    · have h2 : k ≠ 0 := by omega
      simp [eqUsize, from_usize, from_limb, h2]

/-- Witness for **C10** at `isize::MIN` and `usize::MAX`. -/
theorem c10_construct_then_eq_witness :
    eqIsize (from_isize (-(2 ^ 63))) (-(2 ^ 63)) = true ∧
    eqUsize (from_usize (2 ^ 64 - 1)) (2 ^ 64 - 1) = true :=
  ⟨c10_construct_then_eq.1 (-(2 ^ 63)) (by decide) (by decide),
   c10_construct_then_eq.2 (2 ^ 64 - 1) (by decide)⟩

/-- C7 — allocation totality and fatal capacity overflow: for every
signed limb count `n` with `|n| > 1`, `Int::allocate(n)` either returns
an `Int` whose `len` field is `n` backed by a fresh zero-initialised
block of exactly `|n|` limbs, or panics through `capacity_overflow`; the
panic happens exactly when the byte size `|n| * Limb::SIZE` exceeds the
maximum allocatable object size, so an under-sized allocation is never
returned. -/
theorem c7_allocate_total :
    ∀ (m : Mem) (n : Int), 1 < n.natAbs →
      ((∃ x m', allocateInt m n = .ok x m' ∧ x.len = n ∧
          readBlock m' x.repr = some (List.replicate n.natAbs 0)) ∨
        allocateInt m n = .capacityOverflow) ∧
      (allocateInt m n = .capacityOverflow ↔
        isizeMaxN < LIMB_SIZE * n.natAbs) := by
  intro m n _
  by_cases h : LIMB_SIZE * n.natAbs ≤ isizeMaxN
  · have e : allocateInt m n =
        .ok ⟨m.next, n⟩ ⟨(m.next, List.replicate n.natAbs 0) :: m.blocks, m.next + 1⟩ := by
      unfold allocateInt layoutArrayLimb alloc_guard usizeBits allocBlock
      simp [h]
    constructor
    · left
      refine ⟨⟨m.next, n⟩, _, e, rfl, ?_⟩
      simp [readBlock, List.find?]
    · rw [e]
      simp
      omega
  · have e : allocateInt m n = .capacityOverflow := by
      unfold allocateInt layoutArrayLimb
      simp [h]
    rw [e]
    simp
    omega

/-- Witness for **C7** at `n = 2` with an empty heap. -/
theorem c7_allocate_total_witness :
    ((∃ x m', allocateInt ⟨[], 0⟩ 2 = .ok x m' ∧ x.len = 2 ∧
        readBlock m' x.repr = some (List.replicate (2 : Int).natAbs 0)) ∨
      allocateInt ⟨[], 0⟩ 2 = .capacityOverflow) ∧
    (allocateInt ⟨[], 0⟩ 2 = .capacityOverflow ↔
      isizeMaxN < LIMB_SIZE * (2 : Int).natAbs) :=
  c7_allocate_total ⟨[], 0⟩ 2 (by decide)

/-! Helper lemmas about inline representations. -/

theorem lenIsInline_of_natAbs (len : Int) (h : len.natAbs ≤ 1) :
    lenIsInline len = true := by
  unfold lenIsInline
  have : len = -1 ∨ len = 0 ∨ len = 1 := by omega
  rcases this with h1 | h1 | h1 <;> simp [h1]

theorem current_allocation_inline (x : IntR) (h : x.len.natAbs ≤ 1) :
    current_allocation x = none := by
  unfold current_allocation
  rw [lenIsInline_of_natAbs x.len h]
  simp

theorem cloneInt_inline (m : Mem) (x : IntR) (h : x.len.natAbs ≤ 1) :
    cloneInt m x = (x, m) := by
  unfold cloneInt
  rw [current_allocation_inline x h]

theorem dropInt_inline (m : Mem) (x : IntR) (h : x.len.natAbs ≤ 1) :
    dropInt m x = m := by
  unfold dropInt
  rw [current_allocation_inline x h]

/-- C9 — every `Int` reachable through the compiled crate's public
interface (the constants, `from_usize`/`from_isize`, and the closure
under `signum`, `abs`, `clone` and `clone_from`) is inline: its length
field satisfies `|len| ≤ 1`, `current_allocation` returns `None`,
cloning copies the word without touching the heap (so `Int::allocate` is
never invoked), and `Drop` leaves the heap unchanged. -/
theorem c9_reachable_ints_inline :
    ∀ (m : Mem) (x : IntR), Reach m x →
      x.len.natAbs ≤ 1 ∧ current_allocation x = none ∧
      cloneInt m x = (x, m) ∧ dropInt m x = m := by
  have pack : ∀ (m : Mem) (x : IntR), x.len.natAbs ≤ 1 →
      x.len.natAbs ≤ 1 ∧ current_allocation x = none ∧
      cloneInt m x = (x, m) ∧ dropInt m x = m := fun m x h =>
    ⟨h, current_allocation_inline x h, cloneInt_inline m x h, dropInt_inline m x h⟩
  intro m x h
  induction h with
  | zero m => exact pack m _ (by decide)
  | one m => exact pack m _ (by decide)
  | negOne m => exact pack m _ (by decide)
  | ofUsize m n =>
    refine pack m _ ?_
    unfold from_usize from_limb
    rcases Nat.eq_zero_or_pos n with h1 | h1
    · simp [h1]
    · have h2 : n ≠ 0 := by omega
      simp [h2]
  | ofIsize m n =>
    refine pack m _ ?_
    unfold from_isize
    rcases lt_trichotomy n 0 with h1 | h1 | h1
    · have e1 : ¬ 0 < n := by omega
      have e2 : n ≠ 0 := by omega
      simp [e1, e2]
    · simp [h1]
    · simp [h1]
  | signum m x _ ih =>
    refine pack m _ ?_
    unfold signumInt
    rcases (x.sign) with _ | _ | _ <;> decide
  | abs m x _ ih =>
    refine pack m _ ?_
    have h1 := ih.1
    unfold absInt
    simpa only [Int.natAbs_abs] using h1
  | clone m x _ ih =>
    rw [cloneInt_inline m x ih.1]
    exact pack m x ih.1
  | cloneFrom m dst src _ _ ih1 ih2 =>
    have e : clone_from m dst src = (⟨src.repr, src.len⟩, m) := by
      unfold clone_from
      rw [current_allocation_inline src ih2.1, current_allocation_inline dst ih1.1]
    rw [e]
    exact pack m ⟨src.repr, src.len⟩ ih2.1

/-- Witness for **C9** at `Int::from_usize(5)` with an empty heap. -/
theorem c9_reachable_ints_inline_witness :
    (from_usize 5).len.natAbs ≤ 1 ∧
    current_allocation (from_usize 5) = none ∧
    cloneInt ⟨[], 0⟩ (from_usize 5) = (from_usize 5, ⟨[], 0⟩) ∧
    dropInt ⟨[], 0⟩ (from_usize 5) = ⟨[], 0⟩ :=
  c9_reachable_ints_inline ⟨[], 0⟩ (from_usize 5) (Reach.ofUsize ⟨[], 0⟩ 5)

/-! Byte-serialisation lemmas backing the `memcmp` fast path. -/

theorem limbBytes_length (k : Nat) : ∀ v, (limbBytes k v).length = k := by
  induction k with
  | zero => intro v; rfl
  | succ k ih =>
    intro v
    simp [limbBytes, ih]

theorem limbBytes_inj (k : Nat) : ∀ v w, v < 256 ^ k → w < 256 ^ k →
    limbBytes k v = limbBytes k w → v = w := by
  induction k with
  | zero =>
    intro v w hv hw _
    simp [pow_zero] at hv hw
    omega
  | succ k ih =>
    intro v w hv hw h
    simp only [limbBytes, List.cons.injEq] at h
    obtain ⟨h1, h2⟩ := h
    have hv' : v / 256 < 256 ^ k := by
      rw [Nat.div_lt_iff_lt_mul (by norm_num)]
      calc v < 256 ^ (k + 1) := hv
        _ = 256 ^ k * 256 := by ring
    have hw' : w / 256 < 256 ^ k := by
      rw [Nat.div_lt_iff_lt_mul (by norm_num)]
      calc w < 256 ^ (k + 1) := hw
        _ = 256 ^ k * 256 := by ring
    have h3 := ih (v / 256) (w / 256) hv' hw' h2
    omega

theorem limbsBytes_inj : ∀ xs ys : List Nat,
    (∀ l ∈ xs, l < 2 ^ 64) → (∀ l ∈ ys, l < 2 ^ 64) → xs.length = ys.length →
    (limbsBytes xs = limbsBytes ys ↔ xs = ys) := by
  intro xs
  induction xs with
  | nil =>
    intro ys _ _ hlen
    cases ys with
    | nil => simp
    | cons y ys => simp at hlen
  | cons x xs ih =>
    intro ys hxs hys hlen
    cases ys with
    | nil => simp at hlen
    | cons y ys =>
      have hx : x < 2 ^ 64 := hxs x (by simp)
      have hy : y < 2 ^ 64 := hys y (by simp)
      have hxs' : ∀ l ∈ xs, l < 2 ^ 64 := fun l hl => hxs l (by simp [hl])
      have hys' : ∀ l ∈ ys, l < 2 ^ 64 := fun l hl => hys l (by simp [hl])
      have hlen' : xs.length = ys.length := by simpa using hlen
      constructor
      · intro h
        have hb : limbsBytes (x :: xs) =
            limbBytes LIMB_SIZE x ++ limbsBytes xs := by
          simp [limbsBytes]
        have hb' : limbsBytes (y :: ys) =
            limbBytes LIMB_SIZE y ++ limbsBytes ys := by
          simp [limbsBytes]
        rw [hb, hb'] at h
        have hlb : (limbBytes LIMB_SIZE x).length = (limbBytes LIMB_SIZE y).length := by
          rw [limbBytes_length, limbBytes_length]
        obtain ⟨e1, e2⟩ := List.append_inj h hlb
        have e256 : (256 : Nat) ^ LIMB_SIZE = 2 ^ 64 := by norm_num [LIMB_SIZE]
        have ex : x = y := limbBytes_inj LIMB_SIZE x y
          (by rw [e256]; exact hx) (by rw [e256]; exact hy) e1
        have exs : xs = ys := (ih ys hxs' hys' hlen').mp e2
        rw [ex, exs]
      · intro h
        rw [h]

theorem lenIsInline_false_iff (len : Int) :
    lenIsInline len = false ↔ 1 < len.natAbs := by
  unfold lenIsInline
  simp only [Bool.or_eq_false_iff, beq_eq_false_iff_ne, ne_eq]
  omega

/-- C5 — equality characterisation: two invariant-satisfying `Int`s are
equal exactly when their `len` fields agree and their limb storage (the
inline limb, or the heap block, compared byte-wise by `memcmp` over
`len * Limb::SIZE` bytes) is identical — for matching lengths the bulk
byte comparison coincides with limb-by-limb numeric equality; and two
zero-length `Int`s (holding the zero limb) compare equal under every
heap, i.e. without reading any heap limb. -/
theorem c5_eq_characterization :
    (∀ (m : Mem) (a b : IntR), IntWF m a → IntWF m b →
      (intEq m a b = true ↔ a.len = b.len ∧ magLimbs m a = magLimbs m b)) ∧
    (∀ (m m' : Mem) (a b : IntR), a.len = 0 → b.len = 0 →
      a.repr = 0 → b.repr = 0 → intEq m a b = true ∧ intEq m' a b = true) := by
  constructor
  · intro m a b ha hb
    by_cases hlen : a.len = b.len
    · by_cases hinl : lenIsInline a.len = true
      · have hinlb : lenIsInline b.len = true := by rw [← hlen]; exact hinl
        have e : intEq m a b = (a.repr == b.repr) := by
          unfold intEq
          rw [if_neg (by simp [hlen]), if_pos hinl]
        rw [e]
        unfold magLimbs
        rw [if_pos hinl, if_pos hinlb]
        simp [hlen]
      · have hinl' : lenIsInline a.len = false := by
          simpa using hinl
        have hgt : 1 < a.len.natAbs := (lenIsInline_false_iff a.len).mp hinl'
        have hgtb : 1 < b.len.natAbs := by rw [← hlen]; exact hgt
        obtain ⟨x, hx, hxlen, hxlt⟩ := ha.heapLs hgt
        obtain ⟨y, hy, hylen, hylt⟩ := hb.heapLs hgtb
        have hinlb : lenIsInline b.len = false := by rw [← hlen]; exact hinl'
        have tx : List.take a.len.natAbs x = x := by
          rw [← hxlen]
          exact List.take_length x
        have ty : List.take a.len.natAbs y = y := by
          have hy' : y.length = a.len.natAbs := by rw [hylen, hlen]
          rw [← hy']
          exact List.take_length y
        have e : intEq m a b = (limbsBytes x == limbsBytes y) := by
          unfold intEq
          rw [if_neg (by simp [hlen]), if_neg (by simp [hinl']), hx, hy]
          dsimp only
          rw [tx, ty]
        rw [e]
        unfold magLimbs
        rw [if_neg (by simp [hinl']), if_neg (by simp [hinlb]), hx, hy]
        simp only [beq_iff_eq, Option.some.injEq]
        have hlens : x.length = y.length := by
          rw [hxlen, hylen, hlen]
        rw [limbsBytes_inj x y hxlt hylt hlens]
        simp [hlen]
    · have e : intEq m a b = false := by
        unfold intEq
        rw [if_pos hlen]
      rw [e]
      simp
      intro h
      exact absurd h hlen
  · intro m m' a b ha hb har hbr
    constructor
    · unfold intEq
      rw [if_neg (by simp [ha, hb]), if_pos (by simp [ha, lenIsInline])]
      simp [har, hbr]
    · unfold intEq
      rw [if_neg (by simp [ha, hb]), if_pos (by simp [ha, lenIsInline])]
      simp [har, hbr]

/-- Witness for **C5** at a heap-backed pair: two 2-limb `Int`s at
addresses 0 and 1, both holding the limbs `[1, 2]`. -/
theorem c5_eq_characterization_witness :
    intEq ⟨[(0, [1, 2]), (1, [1, 2])], 2⟩ ⟨0, 2⟩ ⟨1, 2⟩ = true ↔
      (⟨0, 2⟩ : IntR).len = (⟨1, 2⟩ : IntR).len ∧
      magLimbs ⟨[(0, [1, 2]), (1, [1, 2])], 2⟩ ⟨0, 2⟩ =
        magLimbs ⟨[(0, [1, 2]), (1, [1, 2])], 2⟩ ⟨1, 2⟩ :=
  c5_eq_characterization.1 ⟨[(0, [1, 2]), (1, [1, 2])], 2⟩ ⟨0, 2⟩ ⟨1, 2⟩
    ⟨by decide, by decide, fun _ => ⟨[1, 2], by decide, by decide, by decide⟩⟩
    ⟨by decide, by decide, fun _ => ⟨[1, 2], by decide, by decide, by decide⟩⟩

/-- C6 (counterexample) — the claim that the debug checks of
`copy_nonoverlapping` fail whenever the ranges overlap, *including
identical ranges*, is false: for two accessors over the same 2-limb
block (bounds `[0, 16)`), every debug assertion passes even though the
ranges are identical and hence fully overlapping. -/
theorem c6_identical_ranges_not_detected_cx :
    copy_nonoverlapping_checks ⟨0, 16⟩ 0 ⟨0, 16⟩ 0 2 = true ∧
    rangesOverlap ⟨0, 16⟩ ⟨0, 16⟩ := by
  decide

/-- C6 (amended) — in debug builds the checks of
`copy_nonoverlapping(dst, src, count)` fail whenever either range cannot
support an access of `count` limbs; the overlap assertion is sound (it
fires only on genuinely overlapping ranges) but incomplete: on an
overlapping pair it fires exactly when the source range is *not*
entirely contained in the destination range, so identical ranges and a
source nested inside the destination escape detection (release builds
still compile every check away). -/
theorem c6_overlap_check_characterization :
    ∀ (d s : Bounds) (dp sp count : Nat),
      d.lo < d.hi → s.lo < s.hi →
      (copy_nonoverlapping_checks d dp s sp count = true →
        d.lo ≤ dp ∧ dp + count * LIMB_SIZE ≤ d.hi ∧
        s.lo ≤ sp ∧ sp + count * LIMB_SIZE ≤ s.hi) ∧
      (Bounds.is_overlapping d s = true → rangesOverlap d s) ∧
      (rangesOverlap d s →
        (Bounds.is_overlapping d s = true ↔ ¬(d.lo ≤ s.lo ∧ s.hi ≤ d.hi))) := by
  intro d s dp sp count hd hs
  refine ⟨?_, ?_, ?_⟩
  · intro h
    unfold copy_nonoverlapping_checks Bounds.can_deref Bounds.is_valid_offset at h
    simp only [Bool.and_eq_true, decide_eq_true_eq] at h
    omega
  · intro h
    unfold Bounds.is_overlapping at h
    unfold rangesOverlap
    simp only [decide_eq_true_eq] at h
    omega
  · intro h
    unfold rangesOverlap at h
    unfold Bounds.is_overlapping
    simp only [decide_eq_true_eq]
    obtain ⟨h1, h2, h3, h4⟩ := h
    constructor
    · intro h5
      rcases h5 with ⟨h6, h7⟩ | ⟨h6, h7⟩ <;> omega
    · intro h5
      rw [not_and_or] at h5
      rcases h5 with h6 | h6
      · left
        omega
      · right
        omega

/-- Witness for **C6** (amended) at two disjoint 2-limb ranges. -/
theorem c6_overlap_check_characterization_witness :
    (copy_nonoverlapping_checks ⟨0, 16⟩ 0 ⟨32, 48⟩ 32 2 = true →
      (0 : Nat) ≤ 0 ∧ 0 + 2 * LIMB_SIZE ≤ 16 ∧
      (32 : Nat) ≤ 32 ∧ 32 + 2 * LIMB_SIZE ≤ 48) ∧
    (Bounds.is_overlapping ⟨0, 16⟩ ⟨32, 48⟩ = true →
      rangesOverlap ⟨0, 16⟩ ⟨32, 48⟩) ∧
    (rangesOverlap ⟨0, 16⟩ ⟨32, 48⟩ →
      (Bounds.is_overlapping ⟨0, 16⟩ ⟨32, 48⟩ = true ↔
        ¬((0 : Nat) ≤ 32 ∧ 48 ≤ 16))) :=
  c6_overlap_check_characterization ⟨0, 16⟩ ⟨32, 48⟩ 0 32 2
    (by decide) (by decide)
